import Mathlib

/-!
Shallow embedding of `spacexlaunchbot/storage.py` (class `DataStore`) and
verification of its specified properties.

The Python module stores three state fields on a `DataStore` instance, backed
by a pickle file at a configurable path.  We embed:

* the instance state as a Lean structure `DataStore` (the four attributes set
  in `__init__`, including the configured path);
* the file system as an association list from paths to file contents, where a
  file content is either a successfully-unpicklable mapping (a list of
  attribute-name/value pairs, as produced by `save`'s `to_dump` dict), a valid
  pickle that is not a mapping (on which `self.__dict__.update` raises
  `TypeError`), or bytes that `pickle.load` cannot unpickle at all;
* each method as a pure function threading the file system explicitly; a
  boolean `writeOk` models whether the disk write performed by `save` succeeds
  (disk full / permission denied make `open`/`pickle.dump` raise `OSError`);
* `deepcopy` at the level of structural values is the identity, so the pure
  model elides it; the aliasing content of the deep copies is verified
  separately against a heap model (`Heap`, `deepcopyA`, `readVal`) in the
  second half of this file.
-/

/-- Modelled from the spec: `NotificationType` lives in the repository's
`notifications` module, which is not among the provided source files.  The
spec describes it as an externally-defined enumeration that the store treats
as an opaque value, never interpreting it; we model it as a small enumeration
(the spec's example scenario mentions values `TypeA` and `TypeB`). -/
inductive NotificationType
| typeA
| typeB
| typeC
deriving DecidableEq

/-- Embeds the `SubscriptionOptions` dataclass: notification type plus the
mentions string for launch notifications. -/
structure SubscriptionOptions where
  notification_type : NotificationType
  launch_mentions : String
deriving DecidableEq

/-- Structural values for the opaque "previous schedule embed" dict: arbitrary
nested string/int/dict data, as produced by pickling an embed dictionary. -/
inductive PyData
| pstr (s : String)
| pint (n : Int)
| pdict (entries : List (String × PyData))

/-- Embeds the attribute state of a `DataStore` instance: the four attributes
assigned in `__init__`. -/
structure DataStore where
  _pickle_file_path : String
  _subscribed_channels : List (Int × SubscriptionOptions)
  _launch_embed_for_current_schedule_sent : Bool
  _previous_schedule_embed_dict : PyData

/-- Membership test for the registry, embedding `channel_id in self._subscribed_channels`. -/
def dictMem : List (Int × SubscriptionOptions) → Int → Bool
| [], _ => false
| p :: rest, cid => if p.1 = cid then true else dictMem rest cid

/-- Deletion of a key, embedding `del self._subscribed_channels[channel_id]`
(dict keys are unique, so deleting removes the single matching entry). -/
def dictErase : List (Int × SubscriptionOptions) → Int → List (Int × SubscriptionOptions)
| [], _ => []
| p :: rest, cid => if p.1 = cid then rest else p :: dictErase rest cid

/-- Values that can occur in a pickled `__dict__`-style mapping for this
program: each of the three dumped fields, plus a string field so that a file
could in principle carry a `_pickle_file_path` entry (the reflective
`__dict__.update` would honour it — `save` just never writes one). -/
inductive FieldVal
| chans (m : List (Int × SubscriptionOptions))
| flag (b : Bool)
| snap (d : PyData)
| strv (s : String)

/-- Content of a file on disk, as seen through `open(path, "rb")` followed by
`pickle.load` and `self.__dict__.update`:
* `image kvs`: a valid pickle of a mapping (`update` succeeds, merging `kvs`);
* `nonDict`: a valid pickle of a non-mapping (`update` raises `TypeError`);
* `corrupt`: bytes `pickle.load` cannot unpickle (`UnpicklingError` etc.);
* `unreadable`: the file exists but `open` itself raises an `OSError` other
  than `FileNotFoundError` (e.g. `PermissionError`). -/
inductive FileContent
| image (kvs : List (String × FieldVal))
| nonDict
| corrupt
| unreadable

/-- The file system: an association list from paths to file contents. -/
def FS : Type := List (String × FileContent)

/-- Reading a file: `open(path, "rb")` + `pickle.load`; `none` is `FileNotFoundError`. -/
def fsRead : FS → String → Option FileContent
| [], _ => none
| e :: rest, p => if e.1 = p then some e.2 else fsRead rest p

/-- Writing a file: `open(path, "wb")` + `pickle.dump` truncates/creates the file. -/
def fsWrite : FS → String → FileContent → FS
| [], p, c => [(p, c)]
| e :: rest, p, c => if e.1 = p then (p, c) :: rest else e :: fsWrite rest p c

/-- Errors a mutating call can raise from `save` (disk full, permission
denied, path unwritable — any `OSError` from `open`/`pickle.dump`). -/
inductive SaveError
| ioError
deriving DecidableEq

/-- Errors `__init__` can raise while loading an existing file:
`pickle.load` failing on corrupt bytes, `self.__dict__.update` raising
`TypeError` on a non-mapping, or `open` raising an `OSError` other than
`FileNotFoundError` (e.g. `PermissionError`) on an existing but unreadable
file.  Only `FileNotFoundError` is caught; it is not an error. -/
inductive LoadError
| unpicklingError
| updateTypeError
| osReadError
deriving DecidableEq

/-- The `to_dump` dictionary built by `save`, keyed exactly like the Python
attribute names, for given field values. -/
def dumpFields (c : List (Int × SubscriptionOptions)) (b : Bool) (d : PyData) :
    List (String × FieldVal) :=
  [("_subscribed_channels", FieldVal.chans c),
   ("_launch_embed_for_current_schedule_sent", FieldVal.flag b),
   ("_previous_schedule_embed_dict", FieldVal.snap d)]

/-- The `to_dump` dictionary of a store's current state. -/
def toDump (ds : DataStore) : List (String × FieldVal) :=
  dumpFields ds._subscribed_channels ds._launch_embed_for_current_schedule_sent
    ds._previous_schedule_embed_dict

/-- The state assigned by `__init__` before the load is attempted: empty
registry, flag `False`, empty previous-schedule dict. -/
def defaultState (pickle_file_path : String) : DataStore :=
  { _pickle_file_path := pickle_file_path
    _subscribed_channels := []
    _launch_embed_for_current_schedule_sent := false
    _previous_schedule_embed_dict := PyData.pdict [] }

/-- One step of `self.__dict__.update(tmp)`: assign the attribute named by the
key.  A key naming one of the instance attributes with a value of the matching
dynamic type updates that attribute; other keys just add unrelated attributes
to the instance (invisible to every method of the class), which the model
drops. -/
def applyField (ds : DataStore) (kv : String × FieldVal) : DataStore :=
  match kv with
  | ("_subscribed_channels", FieldVal.chans m) => { ds with _subscribed_channels := m }
  | ("_launch_embed_for_current_schedule_sent", FieldVal.flag b) =>
      { ds with _launch_embed_for_current_schedule_sent := b }
  | ("_previous_schedule_embed_dict", FieldVal.snap d) =>
      { ds with _previous_schedule_embed_dict := d }
  | ("_pickle_file_path", FieldVal.strv s) => { ds with _pickle_file_path := s }
  | _ => ds

/-- `self.__dict__.update(tmp)`: fold the mapping's entries over the state. -/
def dictUpdate (ds : DataStore) (kvs : List (String × FieldVal)) : DataStore :=
  kvs.foldl applyField ds

/-- Embeds `DataStore.__init__`: set the defaults, then try to load the pickle
file; `FileNotFoundError` is caught (keeping the defaults), every other
exception propagates out of construction. -/
def DataStore.init (fs : FS) (pickle_file_path : String) : Except LoadError DataStore :=
  match fsRead fs pickle_file_path with
  | none => Except.ok (defaultState pickle_file_path)
  | some (FileContent.image kvs) => Except.ok (dictUpdate (defaultState pickle_file_path) kvs)
  | some FileContent.nonDict => Except.error LoadError.updateTypeError
  | some FileContent.corrupt => Except.error LoadError.unpicklingError
  | some FileContent.unreadable => Except.error LoadError.osReadError

/-- Embeds `DataStore.save`: dump the three-field `to_dump` dict to the
configured path; `writeOk = false` models the write raising `OSError`. -/
def DataStore.save (ds : DataStore) (fs : FS) (writeOk : Bool) : Except SaveError FS :=
  if writeOk then
    Except.ok (fsWrite fs ds._pickle_file_path (FileContent.image (toDump ds)))
  else
    Except.error SaveError.ioError

/-- Embeds `get_notification_task_vars`: the flag and (a deep copy of) the
previous-schedule dict.  At the level of structural values the deep copy is
the identity; its aliasing content is verified in the heap model below. -/
def DataStore.get_notification_task_vars (ds : DataStore) : Bool × PyData :=
  (ds._launch_embed_for_current_schedule_sent, ds._previous_schedule_embed_dict)

/-- Embeds `set_notification_task_vars`: assign the flag, assign (a deep copy
of) the dict, then `save`.  The returned store is the instance state after the
call, whether or not `save` raised; the `Except` is the call's outcome. -/
def DataStore.set_notification_task_vars (ds : DataStore)
    (launch_embed_for_current_schedule_sent : Bool)
    (previous_schedule_embed_dict : PyData) (fs : FS) (writeOk : Bool) :
    DataStore × Except SaveError FS :=
  let ds' := { ds with
    _launch_embed_for_current_schedule_sent := launch_embed_for_current_schedule_sent
    _previous_schedule_embed_dict := previous_schedule_embed_dict }
  (ds', ds'.save fs writeOk)

/-- Embeds `add_subbed_channel`: if the channel id is not yet a key, insert
`SubscriptionOptions(notif_type, launch_mentions)` (Python dicts append new
keys at the end), `save`, and return `True`; otherwise return `False` without
touching state or disk.  The first component is the instance state after the
call; the second is the call's outcome (`Bool` result and file system). -/
def DataStore.add_subbed_channel (ds : DataStore) (channel_id : Int)
    (notif_type : NotificationType) (launch_mentions : String) (fs : FS) (writeOk : Bool) :
    DataStore × Except SaveError (Bool × FS) :=
  if dictMem ds._subscribed_channels channel_id then
    (ds, Except.ok (false, fs))
  else
    let ds' := { ds with _subscribed_channels :=
      ds._subscribed_channels ++ [(channel_id, ⟨notif_type, launch_mentions⟩)] }
    match ds'.save fs writeOk with
    | Except.ok fs' => (ds', Except.ok (true, fs'))
    | Except.error e => (ds', Except.error e)

/-- Embeds `get_subbed_channels`: (a deep copy of) the registry. -/
def DataStore.get_subbed_channels (ds : DataStore) : List (Int × SubscriptionOptions) :=
  ds._subscribed_channels

/-- Embeds `remove_subbed_channel`: if the channel id is a key, delete it,
`save`, and return `True`; otherwise return `False` without touching state or
disk. -/
def DataStore.remove_subbed_channel (ds : DataStore) (channel_id : Int)
    (fs : FS) (writeOk : Bool) : DataStore × Except SaveError (Bool × FS) :=
  if dictMem ds._subscribed_channels channel_id then
    let ds' := { ds with _subscribed_channels := dictErase ds._subscribed_channels channel_id }
    match ds'.save fs writeOk with
    | Except.ok fs' => (ds', Except.ok (true, fs'))
    | Except.error e => (ds', Except.error e)
  else
    (ds, Except.ok (false, fs))

/-- Embeds the `subbed_channels_count` property: `len(self._subscribed_channels)`. -/
def DataStore.subbed_channels_count (ds : DataStore) : Nat :=
  ds._subscribed_channels.length

/-- The observable state of a store: the value returned by
`get_subbed_channels` and the pair returned by `get_notification_task_vars`. -/
def observableState (ds : DataStore) :
    List (Int × SubscriptionOptions) × (Bool × PyData) :=
  (ds.get_subbed_channels, ds.get_notification_task_vars)

example : dictMem [(5, ⟨NotificationType.typeA, "m"⟩)] 5 = true := rfl
example : dictErase [(5, ⟨NotificationType.typeA, "m"⟩)] 5 = [] := rfl
example : fsRead (fsWrite [] "p" FileContent.corrupt) "p" = some FileContent.corrupt := rfl
example :
    DataStore.init [] "p" = Except.ok (defaultState "p") := rfl

/-- A mutating call on the store's API, with its arguments. -/
inductive Op
| add (channel_id : Int) (notif_type : NotificationType) (launch_mentions : String)
| remove (channel_id : Int)
| setVars (sent : Bool) (snapshot : PyData)

/-- Running one mutating call with the disk available (`writeOk = true`),
so the call is successful: `save`, when reached, returns normally.  (The
`Except.error` arms are unreachable under `writeOk = true`.) -/
def runOp (s : DataStore × FS) (op : Op) : DataStore × FS :=
  match op with
  | Op.add cid nt lm =>
    match s.1.add_subbed_channel cid nt lm s.2 true with
    | (ds', Except.ok (_, fs')) => (ds', fs')
    | (ds', Except.error _) => (ds', s.2)
  | Op.remove cid =>
    match s.1.remove_subbed_channel cid s.2 true with
    | (ds', Except.ok (_, fs')) => (ds', fs')
    | (ds', Except.error _) => (ds', s.2)
  | Op.setVars b d =>
    match s.1.set_notification_task_vars b d s.2 true with
    | (ds', Except.ok fs') => (ds', fs')
    | (ds', Except.error _) => (ds', s.2)

/-- Running a sequence of successful mutating calls. -/
def runOps (s : DataStore × FS) (ops : List Op) : DataStore × FS :=
  ops.foldl runOp s

/-- Membership in a list of channel ids (spec side of count consistency). -/
def idMem : List Int → Int → Bool
| [], _ => false
| x :: rest, cid => if x = cid then true else idMem rest cid

/-- Removal of the first occurrence of a channel id (spec side). -/
def idErase : List Int → Int → List Int
| [], _ => []
| x :: rest, cid => if x = cid then rest else x :: idErase rest cid

/-- Modelled from the spec: one step of the spec's bookkeeping of "the
distinct channel ids currently inserted and not yet removed" — an `add`
inserts the id if absent, a `remove` deletes it, `setNotificationProgress`
leaves it alone. -/
def specIdsStep (s : List Int) : Op → List Int
| Op.add cid _ _ => if idMem s cid then s else s ++ [cid]
| Op.remove cid => idErase s cid
| Op.setVars _ _ => s

/-- Modelled from the spec: the distinct channel ids currently inserted and
not yet removed after a sequence of calls starting from the empty store. -/
def specIds (ops : List Op) : List Int :=
  ops.foldl specIdsStep []

/-- The file at path `P` is either absent or an image that `save` could have
produced (a pickled mapping holding exactly the three dumped fields). -/
def WFat (fs : FS) (P : String) : Prop :=
  fsRead fs P = none ∨
    ∃ c b d, fsRead fs P = some (FileContent.image (dumpFields c b d))

/-- Invariant tying a live store to its backing file: the configured path is
`P`, and the file at `P` is either the image of the store's current state or
still absent with the store in its default state. -/
def StoreInv (P : String) (ds : DataStore) (fs : FS) : Prop :=
  ds._pickle_file_path = P ∧
    (fsRead fs P = some (FileContent.image (toDump ds)) ∨
      (fsRead fs P = none ∧ ds = defaultState P))

theorem fsRead_fsWrite_self (fs : FS) (p : String) (c : FileContent) :
    fsRead (fsWrite fs p c) p = some c := by
  induction fs with
  | nil => simp [fsWrite, fsRead]
  | cons e rest ih =>
    by_cases h : e.1 = p
    · simp [fsWrite, fsRead, h]
    · simp [fsWrite, fsRead, h, ih]

theorem dictUpdate_dumpFields (ds : DataStore) (c : List (Int × SubscriptionOptions))
    (b : Bool) (d : PyData) :
    dictUpdate ds (dumpFields c b d) =
      { ds with _subscribed_channels := c
                _launch_embed_for_current_schedule_sent := b
                _previous_schedule_embed_dict := d } := rfl

theorem toDump_fields (ds : DataStore) :
    toDump ds = dumpFields ds._subscribed_channels
      ds._launch_embed_for_current_schedule_sent ds._previous_schedule_embed_dict := rfl

/-- Loading a store at path `P` from a file system satisfying the invariant
reproduces the live store exactly. -/
theorem init_of_storeInv (P : String) (ds : DataStore) (fs : FS)
    (h : StoreInv P ds fs) : DataStore.init fs P = Except.ok ds := by
  obtain ⟨hpath, hfile | ⟨hfile, hds⟩⟩ := h
  · cases ds with
    | mk p cs fl sn =>
      simp only at hpath
      subst hpath
      simp [DataStore.init, hfile, toDump, dumpFields, dictUpdate, applyField, defaultState]
  · simp [DataStore.init, hfile, hds]

/-- Construction from a spec-conformant file system establishes the invariant. -/
theorem init_storeInv (P : String) (ds : DataStore) (fs : FS)
    (hwf : WFat fs P) (hinit : DataStore.init fs P = Except.ok ds) :
    StoreInv P ds fs := by
  obtain hnone | ⟨c, b, d, himg⟩ := hwf
  · simp only [DataStore.init, hnone] at hinit
    cases hinit
    exact ⟨rfl, Or.inr ⟨hnone, rfl⟩⟩
  · simp only [DataStore.init, himg, dictUpdate_dumpFields] at hinit
    cases hinit
    exact ⟨rfl, Or.inl (by rw [himg]; rfl)⟩

/-- One successful mutating call preserves the store/file invariant. -/
theorem runOp_storeInv (P : String) (ds : DataStore) (fs : FS) (op : Op)
    (h : StoreInv P ds fs) : StoreInv P (runOp (ds, fs) op).1 (runOp (ds, fs) op).2 := by
  obtain ⟨hpath, hfile⟩ := h
  cases op with
  | add cid nt lm =>
    by_cases hmem : dictMem ds._subscribed_channels cid
    · simpa [runOp, DataStore.add_subbed_channel, hmem] using ⟨hpath, hfile⟩
    · refine ⟨by simpa [runOp, DataStore.add_subbed_channel, hmem, DataStore.save] using hpath, ?_⟩
      simp [runOp, DataStore.add_subbed_channel, hmem, DataStore.save, hpath]
      exact Or.inl (fsRead_fsWrite_self fs P _)
  | remove cid =>
    by_cases hmem : dictMem ds._subscribed_channels cid
    · refine ⟨by simpa [runOp, DataStore.remove_subbed_channel, hmem, DataStore.save] using hpath, ?_⟩
      simp [runOp, DataStore.remove_subbed_channel, hmem, DataStore.save, hpath]
      exact Or.inl (fsRead_fsWrite_self fs P _)
    · simpa [runOp, DataStore.remove_subbed_channel, hmem] using ⟨hpath, hfile⟩
  | setVars b d =>
    refine ⟨by simpa [runOp, DataStore.set_notification_task_vars, DataStore.save] using hpath, ?_⟩
    simp [runOp, DataStore.set_notification_task_vars, DataStore.save, hpath]
    exact Or.inl (fsRead_fsWrite_self fs P _)

/-- A sequence of successful mutating calls preserves the invariant. -/
theorem runOps_storeInv (P : String) (ops : List Op) :
    ∀ (ds : DataStore) (fs : FS), StoreInv P ds fs →
      StoreInv P (runOps (ds, fs) ops).1 (runOps (ds, fs) ops).2 := by
  induction ops with
  | nil => intro ds fs h; exact h
  | cons op rest ih =>
    intro ds fs h
    have h1 := runOp_storeInv P ds fs op h
    have : runOps (ds, fs) (op :: rest) = runOps (runOp (ds, fs) op) rest := rfl
    rw [this]
    exact ih _ _ h1

theorem dictMem_eq_idMem (l : List (Int × SubscriptionOptions)) (cid : Int) :
    dictMem l cid = idMem (l.map Prod.fst) cid := by
  induction l with
  | nil => rfl
  | cons p rest ih => by_cases h : p.1 = cid <;> simp [dictMem, idMem, h, ih]

theorem map_fst_dictErase (l : List (Int × SubscriptionOptions)) (cid : Int) :
    (dictErase l cid).map Prod.fst = idErase (l.map Prod.fst) cid := by
  induction l with
  | nil => rfl
  | cons p rest ih => by_cases h : p.1 = cid <;> simp [dictErase, idErase, h, ih]

theorem dictMem_append_self (l : List (Int × SubscriptionOptions)) (cid : Int)
    (o : SubscriptionOptions) : dictMem (l ++ [(cid, o)]) cid = true := by
  induction l with
  | nil => simp [dictMem]
  | cons p rest ih => by_cases h : p.1 = cid <;> simp [dictMem, h, ih]

theorem idErase_of_not_mem (s : List Int) (cid : Int) (h : idMem s cid = false) :
    idErase s cid = s := by
  induction s with
  | nil => rfl
  | cons x rest ih =>
    by_cases hx : x = cid
    · simp [idMem, hx] at h
    · simp [idMem, hx] at h
      simp [idErase, hx, ih h]

/-- The registry's key list after one successful call tracks the spec's
bookkeeping of inserted-and-not-removed ids. -/
theorem keys_runOp (ds : DataStore) (fs : FS) (op : Op) :
    ((runOp (ds, fs) op).1)._subscribed_channels.map Prod.fst =
      specIdsStep (ds._subscribed_channels.map Prod.fst) op := by
  cases op with
  | add cid nt lm =>
    by_cases hmem : dictMem ds._subscribed_channels cid
    · have := dictMem_eq_idMem ds._subscribed_channels cid
      simp [runOp, DataStore.add_subbed_channel, hmem, specIdsStep, ← this]
    · have := dictMem_eq_idMem ds._subscribed_channels cid
      simp [runOp, DataStore.add_subbed_channel, hmem, DataStore.save, specIdsStep, ← this]
  | remove cid =>
    by_cases hmem : dictMem ds._subscribed_channels cid
    · have hkeys := map_fst_dictErase ds._subscribed_channels cid
      simp [runOp, DataStore.remove_subbed_channel, hmem, DataStore.save, specIdsStep, hkeys]
    · have hfalse : dictMem ds._subscribed_channels cid = false := by simpa using hmem
      have hid : idMem (ds._subscribed_channels.map Prod.fst) cid = false := by
        rw [← dictMem_eq_idMem, hfalse]
      simp [runOp, DataStore.remove_subbed_channel, hmem, specIdsStep,
        idErase_of_not_mem _ _ hid]
  | setVars b d =>
    simp [runOp, DataStore.set_notification_task_vars, DataStore.save, specIdsStep]

theorem keys_runOps (ops : List Op) :
    ∀ (ds : DataStore) (fs : FS),
      ((runOps (ds, fs) ops).1)._subscribed_channels.map Prod.fst =
        ops.foldl specIdsStep (ds._subscribed_channels.map Prod.fst) := by
  induction ops with
  | nil => intro ds fs; rfl
  | cons op rest ih =>
    intro ds fs
    have hstep := keys_runOp ds fs op
    have hrw : runOps (ds, fs) (op :: rest) = runOps (runOp (ds, fs) op) rest := rfl
    rw [hrw, List.foldl_cons, ← hstep]
    exact ih (runOp (ds, fs) op).1 (runOp (ds, fs) op).2

theorem idMem_iff_mem (s : List Int) (cid : Int) : idMem s cid = true ↔ cid ∈ s := by
  induction s with
  | nil => simp [idMem]
  | cons x rest ih =>
    by_cases h : x = cid
    · simp [idMem, h]
    · simp [idMem, h, ih, Ne.symm h]

theorem idErase_sublist (s : List Int) (cid : Int) : (idErase s cid).Sublist s := by
  induction s with
  | nil => simp [idErase]
  | cons x rest ih =>
    by_cases h : x = cid
    · simp [idErase, h]
    · simpa [idErase, h] using ih.cons₂ x

theorem specIdsStep_nodup (s : List Int) (op : Op) (h : s.Nodup) :
    (specIdsStep s op).Nodup := by
  cases op with
  | add cid nt lm =>
    by_cases hmem : idMem s cid
    · simpa [specIdsStep, hmem] using h
    · have hnot : cid ∉ s := fun hc => hmem ((idMem_iff_mem s cid).2 hc)
      simp [specIdsStep, hmem, List.nodup_append, h, hnot]
  | remove cid => exact (idErase_sublist s cid).nodup (by simpa [specIdsStep] using h)
  | setVars b d => simpa [specIdsStep] using h

theorem specIds_foldl_nodup (ops : List Op) :
    ∀ (s : List Int), s.Nodup → (ops.foldl specIdsStep s).Nodup := by
  induction ops with
  | nil => intro s h; exact h
  | cons op rest ih =>
    intro s h
    rw [List.foldl_cons]
    exact ih _ (specIdsStep_nodup s op h)

/-!
Heap model for the deep-copy discipline.

The pure model above treats `deepcopy` as the identity on structural values,
which is its semantics up to aliasing.  What `deepcopy` actually buys the
program is isolation: the object returned by `get_subbed_channels` (and the
snapshot component returned by `get_notification_task_vars`) shares no mutable
object with the instance's internal state, so in-place mutation of the
returned object cannot change what subsequent getter calls see.  To state
that, we model the Python object graph explicitly: a heap is a list of
objects addressed by position; an object is a dict (whose values are
addresses), a `SubscriptionOptions` instance, or an immutable leaf.  `deepcopy`
allocates a fresh copy of the whole reachable structure at the end of the
heap; in-place mutation replaces the object stored at one address.
-/

/-- A Python object on the heap: a dict mapping keys to addresses of value
objects (the registry maps channel ids to `SubscriptionOptions` addresses; the
schedule-embed dict nests further dicts), a `SubscriptionOptions` instance, or
an immutable leaf value. -/
inductive HObj
| hdict (entries : List (Int × Nat))
| hopts (notif_type : NotificationType) (launch_mentions : String)
| hleaf (s : String)
deriving DecidableEq

/-- The heap: objects addressed by list position. -/
abbrev Heap := List HObj

/-- The structural value of an object, with all references chased. -/
inductive HVal
| vdict (entries : List (Int × HVal))
| vopts (notif_type : NotificationType) (launch_mentions : String)
| vleaf (s : String)

/-- The addresses an object refers to directly. -/
def objRefs : HObj → List Nat
| HObj.hdict es => es.map Prod.snd
| HObj.hopts _ _ => []
| HObj.hleaf _ => []

/-- Reading the structural values of a dict's entries, given a reader for
addresses (the reader is `readVal` at one less fuel). -/
def readListWith (rd : Heap → Nat → Option HVal) :
    Heap → List (Int × Nat) → Option (List (Int × HVal))
| _, [] => some []
| h, (k, a) :: rest =>
  match rd h a with
  | none => none
  | some v =>
    match readListWith rd h rest with
    | none => none
    | some vs => some ((k, v) :: vs)

/-- The structural value stored at an address, with `fuel` bounding the chase
depth (any fuel exceeding the actual nesting depth gives the same answer). -/
def readVal : Nat → Heap → Nat → Option HVal :=
  Nat.rec (motive := fun _ => Heap → Nat → Option HVal)
    (fun _ _ => none)
    (fun _ rd h a =>
      match h[a]? with
      | none => none
      | some (HObj.hopts nt lm) => some (HVal.vopts nt lm)
      | some (HObj.hleaf s) => some (HVal.vleaf s)
      | some (HObj.hdict es) => Option.map HVal.vdict (readListWith rd h es))

/-- Copying a dict's entries left to right, threading the heap, given a
copier for addresses (the copier is `deepcopyA` at one less fuel). -/
def copyListWith (cp : Heap → Nat → Option (Heap × Nat)) :
    Heap → List (Int × Nat) → Option (Heap × List (Int × Nat))
| h, [] => some (h, [])
| h, (k, a) :: rest =>
  match cp h a with
  | none => none
  | some (h₁, a₂) =>
    match copyListWith cp h₁ rest with
    | none => none
    | some (h₂, es₂) => some (h₂, (k, a₂) :: es₂)

/-- Embeds `copy.deepcopy` on the object graph: recursively copy the object
at an address into fresh addresses at the end of the heap, returning the new
heap and the address of the copy.  `fuel` bounds the recursion depth. -/
def deepcopyA : Nat → Heap → Nat → Option (Heap × Nat) :=
  Nat.rec (motive := fun _ => Heap → Nat → Option (Heap × Nat))
    (fun _ _ => none)
    (fun _ cp h a =>
      match h[a]? with
      | none => none
      | some (HObj.hopts nt lm) => some (h ++ [HObj.hopts nt lm], h.length)
      | some (HObj.hleaf s) => some (h ++ [HObj.hleaf s], h.length)
      | some (HObj.hdict es) =>
        match copyListWith cp h es with
        | none => none
        | some (h₁, es₂) => some (h₁ ++ [HObj.hdict es₂], h₁.length))

/-- Collecting reachable addresses of a dict's entries, given a collector for
addresses. -/
def reachListWith (rc : Heap → Nat → List Nat) :
    Heap → List (Int × Nat) → List Nat
| _, [] => []
| h, (_, a) :: rest => rc h a ++ reachListWith rc h rest

/-- All addresses reachable from an address (the mutable objects making up
the value rooted there): the root itself plus everything reachable through
dict entries, to depth `fuel`. -/
def reachList : Nat → Heap → Nat → List Nat :=
  Nat.rec (motive := fun _ => Heap → Nat → List Nat)
    (fun _ a => [a])
    (fun _ rc h a =>
      a :: (match h[a]? with
            | some (HObj.hdict es) => reachListWith rc h es
            | _ => []))

/-- Embeds `get_subbed_channels` on the heap: `return deepcopy(self._subscribed_channels)`
where `reg` is the address of the internal registry dict. -/
def heap_get_subbed_channels (fuel : Nat) (h : Heap) (reg : Nat) : Option (Heap × Nat) :=
  deepcopyA fuel h reg

/-- In-place mutation of the object at an address (`d[k] = v`,
`opts.launch_mentions = s`, `d.clear()`, ... all replace the object stored at
that address). -/
def heapMutate (h : Heap) (a : Nat) (o : HObj) : Heap :=
  h.set a o

theorem readVal_zero (h : Heap) (a : Nat) : readVal 0 h a = none := rfl

theorem readVal_succ (f : Nat) (h : Heap) (a : Nat) :
    readVal (f + 1) h a =
      (match h[a]? with
       | none => none
       | some (HObj.hopts nt lm) => some (HVal.vopts nt lm)
       | some (HObj.hleaf s) => some (HVal.vleaf s)
       | some (HObj.hdict es) => Option.map HVal.vdict (readListWith (readVal f) h es)) := rfl

theorem deepcopyA_zero (h : Heap) (a : Nat) : deepcopyA 0 h a = none := rfl

theorem deepcopyA_succ (f : Nat) (h : Heap) (a : Nat) :
    deepcopyA (f + 1) h a =
      (match h[a]? with
       | none => none
       | some (HObj.hopts nt lm) => some (h ++ [HObj.hopts nt lm], h.length)
       | some (HObj.hleaf s) => some (h ++ [HObj.hleaf s], h.length)
       | some (HObj.hdict es) =>
         match copyListWith (deepcopyA f) h es with
         | none => none
         | some (h₁, es₂) => some (h₁ ++ [HObj.hdict es₂], h₁.length)) := rfl

theorem reachList_zero (h : Heap) (a : Nat) : reachList 0 h a = [a] := rfl

theorem reachList_succ (f : Nat) (h : Heap) (a : Nat) :
    reachList (f + 1) h a =
      a :: (match h[a]? with
            | some (HObj.hdict es) => reachListWith (reachList f) h es
            | _ => []) := rfl

/-- Pointwise heap extension: every address populated in `h` holds the same
object in `h₂`. -/
def HeapExt (h h₂ : Heap) : Prop :=
  ∀ (i : Nat) (o : HObj), h[i]? = some o → h₂[i]? = some o

theorem heapExt_append (h t : Heap) : HeapExt h (h ++ t) := by
  intro i o hio
  have hlt : i < h.length := (List.getElem?_eq_some.mp hio).1
  rw [List.getElem?_append]
  simp [hlt, hio]

/-- Every object at or above address `n` refers only to addresses at or above
`n` (the freshly-allocated region is closed under references). -/
def HighRefsFrom (n : Nat) (h₂ : Heap) : Prop :=
  ∀ i o, n ≤ i → h₂[i]? = some o → ∀ x ∈ objRefs o, n ≤ x

theorem highRefsFrom_self (h : Heap) : HighRefsFrom h.length h := by
  intro i o hi ho x _
  have := (List.getElem?_eq_some.mp ho).1
  omega

theorem highRefsFrom_concat {n : Nat} {h₂ : Heap} (o : HObj)
    (h2 : HighRefsFrom n h₂) (ho : ∀ x ∈ objRefs o, n ≤ x) :
    HighRefsFrom n (h₂ ++ [o]) := by
  intro i ob hi hob x hx
  by_cases hlt : i < h₂.length
  · rw [List.getElem?_append] at hob
    simp only [hlt, if_pos] at hob
    exact h2 i ob hi hob x hx
  · rcases Nat.lt_or_ge h₂.length i with hgt | hge
    · rw [List.getElem?_eq_none (by simp; omega)] at hob
      cases hob
    · have heq : i = h₂.length := by omega
      subst heq
      rw [List.getElem?_concat_length] at hob
      cases hob
      exact ho x hx

theorem highRefsFrom_compose {n : Nat} {h₂ h₃ : Heap}
    (hn : n ≤ h₂.length)
    (h2 : HighRefsFrom n h₂) (h3 : HighRefsFrom h₂.length h₃)
    (hext : ∃ t, h₃ = h₂ ++ t) : HighRefsFrom n h₃ := by
  intro i o hi ho x hx
  by_cases hlt : i < h₂.length
  · obtain ⟨t, rfl⟩ := hext
    rw [List.getElem?_append] at ho
    simp only [hlt, if_pos] at ho
    exact h2 i o hi ho x hx
  · exact le_trans hn (h3 i o (by omega) ho x hx)

/-- Reading is monotone under pointwise heap extension: a value readable in
`h` reads identically in any extension of `h`. -/
theorem readVal_mono : ∀ (f : Nat),
    (∀ (h h₂ : Heap) (a : Nat) (v : HVal), HeapExt h h₂ →
      readVal f h a = some v → readVal f h₂ a = some v) ∧
    (∀ (h h₂ : Heap) (es : List (Int × Nat)) (vs : List (Int × HVal)), HeapExt h h₂ →
      readListWith (readVal f) h es = some vs → readListWith (readVal f) h₂ es = some vs) := by
  intro f
  induction f with
  | zero =>
    constructor
    · intro h h₂ a v _ hv
      rw [readVal_zero] at hv
      cases hv
    · intro h h₂ es vs hext hv
      cases es with
      | nil => simpa [readListWith] using hv
      | cons p rest =>
        obtain ⟨k, a⟩ := p
        simp [readListWith, readVal_zero] at hv
  | succ f ih =>
    have A : ∀ (h h₂ : Heap) (a : Nat) (v : HVal), HeapExt h h₂ →
        readVal (f + 1) h a = some v → readVal (f + 1) h₂ a = some v := by
      intro h h₂ a v hext hv
      rw [readVal_succ] at hv ⊢
      cases hobj : h[a]? with
      | none => rw [hobj] at hv; cases hv
      | some obj =>
        rw [hobj] at hv
        rw [hext a obj hobj]
        cases obj with
        | hopts nt lm => exact hv
        | hleaf s => exact hv
        | hdict es =>
          have hv' : Option.map HVal.vdict (readListWith (readVal f) h es) = some v := hv
          have goal' : Option.map HVal.vdict (readListWith (readVal f) h₂ es) = some v := by
            cases hes : readListWith (readVal f) h es with
            | none => rw [hes] at hv'; cases hv'
            | some vs =>
              rw [hes] at hv'
              rw [ih.2 h h₂ es vs hext hes]
              exact hv'
          exact goal'
    refine ⟨A, ?_⟩
    intro h h₂ es
    induction es with
    | nil =>
      intro vs hext hv
      simpa [readListWith] using hv
    | cons p rest ihes =>
      intro vs hext hv
      obtain ⟨k, a⟩ := p
      simp only [readListWith] at hv ⊢
      cases hva : readVal (f + 1) h a with
      | none => rw [hva] at hv; cases hv
      | some v1 =>
        rw [hva] at hv
        rw [A h h₂ a v1 hext hva]
        cases hvr : readListWith (readVal (f + 1)) h rest with
        | none => rw [hvr] at hv; cases hv
        | some vs1 =>
          rw [hvr] at hv
          rw [ihes vs1 hext hvr]
          exact hv

/-- `deepcopyA` only appends to the heap, returns a fresh address, and the
freshly-allocated region is closed under references. -/
theorem deepcopy_fresh : ∀ (f : Nat),
    (∀ (h : Heap) (a : Nat) (h' : Heap) (c : Nat), deepcopyA f h a = some (h', c) →
      (∃ t, h' = h ++ t) ∧ h.length ≤ c ∧ c < h'.length ∧ HighRefsFrom h.length h') ∧
    (∀ (es : List (Int × Nat)) (h : Heap) (h₁ : Heap) (es₂ : List (Int × Nat)),
      copyListWith (deepcopyA f) h es = some (h₁, es₂) →
      (∃ t, h₁ = h ++ t) ∧ (∀ p ∈ es₂, h.length ≤ p.2 ∧ p.2 < h₁.length) ∧
        HighRefsFrom h.length h₁) := by
  intro f
  induction f with
  | zero =>
    constructor
    · intro h a h' c hc
      rw [deepcopyA_zero] at hc
      cases hc
    · intro es h h₁ es₂ hc
      cases es with
      | nil =>
        simp only [copyListWith] at hc
        cases hc
        exact ⟨⟨[], by simp⟩, by simp, highRefsFrom_self h⟩
      | cons p rest =>
        obtain ⟨k, a⟩ := p
        simp [copyListWith, deepcopyA_zero] at hc
  | succ f ih =>
    have A : ∀ (h : Heap) (a : Nat) (h' : Heap) (c : Nat),
        deepcopyA (f + 1) h a = some (h', c) →
        (∃ t, h' = h ++ t) ∧ h.length ≤ c ∧ c < h'.length ∧ HighRefsFrom h.length h' := by
      intro h a h' c hc
      rw [deepcopyA_succ] at hc
      cases hobj : h[a]? with
      | none => rw [hobj] at hc; cases hc
      | some obj =>
        rw [hobj] at hc
        cases obj with
        | hopts nt lm =>
          have hc' : some ((h ++ [HObj.hopts nt lm] : Heap), h.length) = some (h', c) := hc
          cases hc'
          refine ⟨⟨_, rfl⟩, le_refl _, by simp, ?_⟩
          exact highRefsFrom_concat _ (highRefsFrom_self h) (by simp [objRefs])
        | hleaf s =>
          have hc' : some ((h ++ [HObj.hleaf s] : Heap), h.length) = some (h', c) := hc
          cases hc'
          refine ⟨⟨_, rfl⟩, le_refl _, by simp, ?_⟩
          exact highRefsFrom_concat _ (highRefsFrom_self h) (by simp [objRefs])
        | hdict es =>
          have hc' : (match copyListWith (deepcopyA f) h es with
            | none => none
            | some (h₁, es₂) => some ((h₁ ++ [HObj.hdict es₂] : Heap), h₁.length)) =
              some (h', c) := hc
          cases hcl : copyListWith (deepcopyA f) h es with
          | none => rw [hcl] at hc'; cases hc'
          | some r =>
            obtain ⟨h₁, es₂⟩ := r
            rw [hcl] at hc'
            cases hc'
            obtain ⟨⟨t, rfl⟩, hbounds, hhigh⟩ := ih.2 es h _ _ hcl
            refine ⟨⟨t ++ [HObj.hdict es₂], by simp⟩, by simp, by simp, ?_⟩
            refine highRefsFrom_concat _ hhigh ?_
            intro x hx
            simp only [objRefs, List.mem_map] at hx
            obtain ⟨p, hp, rfl⟩ := hx
            exact (hbounds p hp).1
    refine ⟨A, ?_⟩
    intro es
    induction es with
    | nil =>
      intro h h₁ es₂ hc
      simp only [copyListWith] at hc
      cases hc
      exact ⟨⟨[], by simp⟩, by simp, highRefsFrom_self h⟩
    | cons p rest ihes =>
      intro h h₁ es₂ hc
      obtain ⟨k, a⟩ := p
      simp only [copyListWith] at hc
      cases hcp : deepcopyA (f + 1) h a with
      | none => rw [hcp] at hc; cases hc
      | some r =>
        obtain ⟨h₂, a₂⟩ := r
        rw [hcp] at hc
        have hc' : (match copyListWith (deepcopyA (f + 1)) h₂ rest with
          | none => none
          | some (h₃, es₃) => some (h₃, (k, a₂) :: es₃)) = some (h₁, es₂) := hc
        cases hcr : copyListWith (deepcopyA (f + 1)) h₂ rest with
        | none => rw [hcr] at hc'; cases hc'
        | some r₂ =>
          obtain ⟨h₃, es₃⟩ := r₂
          rw [hcr] at hc'
          cases hc'
          obtain ⟨⟨t₂, rfl⟩, ha₂low, ha₂hi, hhigh₂⟩ := A h a _ _ hcp
          obtain ⟨⟨t₃, rfl⟩, hb, hhigh₃⟩ := ihes (h ++ t₂) _ _ hcr
          have hlen2 : h.length ≤ (h ++ t₂).length := by simp
          refine ⟨⟨t₂ ++ t₃, by simp⟩, ?_, ?_⟩
          · intro q hq
            rcases List.mem_cons.mp hq with rfl | hq'
            · exact ⟨ha₂low, by simp at ha₂hi ⊢; omega⟩
            · have := hb q hq'
              constructor
              · omega
              · exact this.2
          · exact highRefsFrom_compose hlen2 hhigh₂ hhigh₃ ⟨t₃, by simp⟩

/-- In a heap whose region at or above `n` is closed under references, every
address reachable from an address at or above `n` is itself at or above `n`. -/
theorem reach_high : ∀ (g : Nat) (h' : Heap) (n : Nat), HighRefsFrom n h' →
    (∀ (c : Nat), n ≤ c → ∀ x ∈ reachList g h' c, n ≤ x) ∧
    (∀ (es : List (Int × Nat)), (∀ p ∈ es, n ≤ p.2) →
      ∀ x ∈ reachListWith (reachList g) h' es, n ≤ x) := by
  intro g
  induction g with
  | zero =>
    intro h' n _
    constructor
    · intro c hc x hx
      rw [reachList_zero] at hx
      simp at hx
      omega
    · intro es hes x hx
      induction es with
      | nil => simp [reachListWith] at hx
      | cons p rest ihr =>
        obtain ⟨k, a⟩ := p
        simp only [reachListWith] at hx
        rcases List.mem_append.mp hx with h1 | h2
        · rw [reachList_zero] at h1
          simp at h1
          have := hes (k, a) (by simp)
          omega
        · exact ihr (fun q hq => hes q (by simp [hq])) h2
  | succ g ih =>
    intro h' n hhigh
    obtain ⟨_, ihes⟩ := ih h' n hhigh
    have A : ∀ (c : Nat), n ≤ c → ∀ x ∈ reachList (g + 1) h' c, n ≤ x := by
      intro c hc x hx
      rw [reachList_succ] at hx
      rcases List.mem_cons.mp hx with rfl | hx'
      · exact hc
      · cases hobj : h'[c]? with
        | none => rw [hobj] at hx'; simp at hx'
        | some obj =>
          rw [hobj] at hx'
          cases obj with
          | hopts nt lm => simp at hx'
          | hleaf s => simp at hx'
          | hdict es =>
            refine ihes es ?_ x hx'
            intro p hp
            exact hhigh c (HObj.hdict es) hc hobj p.2
              (by simp only [objRefs]; exact List.mem_map_of_mem Prod.snd hp)
    refine ⟨A, ?_⟩
    intro es
    induction es with
    | nil => intro _ x hx; simp [reachListWith] at hx
    | cons p rest ihr =>
      intro hes x hx
      obtain ⟨k, a⟩ := p
      simp only [reachListWith] at hx
      rcases List.mem_append.mp hx with h1 | h2
      · exact A a (hes (k, a) (by simp)) x h1
      · exact ihr (fun q hq => hes q (by simp [hq])) x h2

/-- A deep copy reads back the same structural value as its original. -/
theorem deepcopy_reads : ∀ (f : Nat),
    (∀ (g : Nat) (h : Heap) (a : Nat) (v : HVal) (h' : Heap) (c : Nat),
      readVal f h a = some v → deepcopyA g h a = some (h', c) →
      readVal f h' c = some v) ∧
    (∀ (es : List (Int × Nat)) (g : Nat) (h : Heap) (vs : List (Int × HVal)) (h₁ : Heap)
        (es₂ : List (Int × Nat)),
      readListWith (readVal f) h es = some vs →
      copyListWith (deepcopyA g) h es = some (h₁, es₂) →
      readListWith (readVal f) h₁ es₂ = some vs) := by
  intro f
  induction f with
  | zero =>
    constructor
    · intro g h a v h' c hv
      rw [readVal_zero] at hv
      cases hv
    · intro es g h vs h₁ es₂ hv hc
      cases es with
      | nil =>
        simp only [copyListWith] at hc
        simp only [readListWith] at hv
        cases hv
        cases hc
        simp [readListWith]
      | cons p rest =>
        obtain ⟨k, a⟩ := p
        simp [readListWith, readVal_zero] at hv
  | succ f ih =>
    have A : ∀ (g : Nat) (h : Heap) (a : Nat) (v : HVal) (h' : Heap) (c : Nat),
        readVal (f + 1) h a = some v → deepcopyA g h a = some (h', c) →
        readVal (f + 1) h' c = some v := by
      intro g h a v h' c hv hc
      cases g with
      | zero => rw [deepcopyA_zero] at hc; cases hc
      | succ g =>
        rw [readVal_succ] at hv
        rw [deepcopyA_succ] at hc
        cases hobj : h[a]? with
        | none => rw [hobj] at hc; cases hc
        | some obj =>
          rw [hobj] at hv hc
          cases obj with
          | hopts nt lm =>
            have hv' : some (HVal.vopts nt lm) = some v := hv
            have hc' : some ((h ++ [HObj.hopts nt lm] : Heap), h.length) = some (h', c) := hc
            cases hv'
            cases hc'
            rw [readVal_succ, List.getElem?_concat_length]
          | hleaf s =>
            have hv' : some (HVal.vleaf s) = some v := hv
            have hc' : some ((h ++ [HObj.hleaf s] : Heap), h.length) = some (h', c) := hc
            cases hv'
            cases hc'
            rw [readVal_succ, List.getElem?_concat_length]
          | hdict es =>
            have hv' : Option.map HVal.vdict (readListWith (readVal f) h es) = some v := hv
            have hc' : (match copyListWith (deepcopyA g) h es with
              | none => none
              | some (h₁, es₂) => some ((h₁ ++ [HObj.hdict es₂] : Heap), h₁.length)) =
                some (h', c) := hc
            cases hes : readListWith (readVal f) h es with
            | none => rw [hes] at hv'; cases hv'
            | some vs =>
              rw [hes] at hv'
              cases hcl : copyListWith (deepcopyA g) h es with
              | none => rw [hcl] at hc'; cases hc'
              | some r =>
                obtain ⟨h₁, es₂⟩ := r
                rw [hcl] at hc'
                cases hc'
                have h1 : readListWith (readVal f) h₁ es₂ = some vs :=
                  ih.2 es g h vs h₁ es₂ hes hcl
                have h2 : readListWith (readVal f) (h₁ ++ [HObj.hdict es₂]) es₂ = some vs :=
                  (readVal_mono f).2 h₁ _ es₂ vs (heapExt_append h₁ [HObj.hdict es₂]) h1
                rw [readVal_succ, List.getElem?_concat_length]
                show Option.map HVal.vdict
                  (readListWith (readVal f) (h₁ ++ [HObj.hdict es₂]) es₂) = some v
                rw [h2]
                exact hv'
    refine ⟨A, ?_⟩
    intro es
    induction es with
    | nil =>
      intro g h vs h₁ es₂ hv hc
      simp only [readListWith] at hv
      simp only [copyListWith] at hc
      cases hv
      cases hc
      simp [readListWith]
    | cons p rest ihr =>
      intro g h vs h₁ es₂ hv hc
      obtain ⟨k, a⟩ := p
      simp only [readListWith] at hv
      simp only [copyListWith] at hc
      cases hva : readVal (f + 1) h a with
      | none => rw [hva] at hv; cases hv
      | some v1 =>
        rw [hva] at hv
        cases hvr : readListWith (readVal (f + 1)) h rest with
        | none => rw [hvr] at hv; cases hv
        | some vrest =>
          rw [hvr] at hv
          cases hv
          cases hcp : deepcopyA g h a with
          | none => rw [hcp] at hc; cases hc
          | some r =>
            obtain ⟨h₂, a₂⟩ := r
            rw [hcp] at hc
            have hc' : (match copyListWith (deepcopyA g) h₂ rest with
              | none => none
              | some (h₃, es₃) => some (h₃, (k, a₂) :: es₃)) = some (h₁, es₂) := hc
            cases hcr : copyListWith (deepcopyA g) h₂ rest with
            | none => rw [hcr] at hc'; cases hc'
            | some r₂ =>
              obtain ⟨h₃, es₃⟩ := r₂
              rw [hcr] at hc'
              cases hc'
              obtain ⟨⟨t₂, rfl⟩, _, _, _⟩ := (deepcopy_fresh g).1 h a _ _ hcp
              obtain ⟨⟨t₃, rfl⟩, _, _⟩ := (deepcopy_fresh g).2 rest _ _ _ hcr
              have hv1 : readVal (f + 1) (h ++ t₂) a₂ = some v1 := A g h a v1 _ a₂ hva hcp
              have hrest2 : readListWith (readVal (f + 1)) (h ++ t₂) rest = some vrest :=
                (readVal_mono (f + 1)).2 h _ rest vrest (heapExt_append h t₂) hvr
              have hrest3 : readListWith (readVal (f + 1)) (h ++ t₂ ++ t₃) es₃ = some vrest :=
                ihr g (h ++ t₂) vrest _ es₃ hrest2 hcr
              have hv2 : readVal (f + 1) (h ++ t₂ ++ t₃) a₂ = some v1 :=
                (readVal_mono (f + 1)).1 (h ++ t₂) _ a₂ v1 (heapExt_append (h ++ t₂) t₃) hv1
              have hfinal : readListWith (readVal (f + 1)) (h ++ t₂ ++ t₃) ((k, a₂) :: es₃) =
                  some ((k, v1) :: vrest) := by
                simp only [readListWith]
                rw [hv2]
                show (match readListWith (readVal (f + 1)) (h ++ t₂ ++ t₃) es₃ with
                      | none => none
                      | some vs => some ((k, v1) :: vs)) = some ((k, v1) :: vrest)
                rw [hrest3]
              simpa [List.append_assoc] using hfinal

/-- Mutating any address outside the original heap leaves every value
readable in the original heap unchanged. -/
theorem readVal_set_high (f : Nat) (h t : Heap) (r a' : Nat) (o : HObj) (v : HVal)
    (ha : h.length ≤ a') (hv : readVal f h r = some v) :
    readVal f (heapMutate (h ++ t) a' o) r = some v := by
  refine (readVal_mono f).1 h _ r v ?_ hv
  intro i ob hio
  have hlt : i < h.length := (List.getElem?_eq_some.mp hio).1
  unfold heapMutate
  rw [List.getElem?_set_ne (by omega), List.getElem?_append]
  simp [hlt, hio]

/-- C2 — Read isolation: `get_subbed_channels` (and the snapshot component of
`get_notification_task_vars`) returns an independent deep copy.  For any heap
`h` whose internal root `r` holds the structural value `v`, the getter's deep
copy `c` reads back the same value `v`; mutating any object of the returned
copy (any address reachable from `c`, i.e. the returned mapping or any of its
values, at any nesting depth) leaves the value at the internal root `r`
unchanged, so a subsequent call to the same getter — a fresh deep copy of the
internal root — again returns a value equal to the state before the external
mutation. -/
theorem get_subbed_channels_isolation
    (f g g₂ : Nat) (h h' : Heap) (r c a' : Nat) (v : HVal) (o : HObj)
    (hread : readVal f h r = some v)
    (hcopy : heap_get_subbed_channels g h r = some (h', c))
    (hmut : a' ∈ reachList g₂ h' c) :
    readVal f h' c = some v ∧
    readVal f (heapMutate h' a' o) r = some v ∧
    (∀ (g₃ : Nat) (h₂ : Heap) (c₂ : Nat),
      deepcopyA g₃ (heapMutate h' a' o) r = some (h₂, c₂) →
      readVal f h₂ c₂ = some v) := by
  obtain ⟨⟨t, rfl⟩, hclow, hchi, hhigh⟩ := (deepcopy_fresh g).1 h r _ _ hcopy
  have hahigh : h.length ≤ a' := (reach_high g₂ _ h.length hhigh).1 c hclow a' hmut
  have h1 : readVal f (h ++ t) c = some v := (deepcopy_reads f).1 g h r v _ c hread hcopy
  have h2 : readVal f (heapMutate (h ++ t) a' o) r = some v :=
    readVal_set_high f h t r a' o v hahigh hread
  exact ⟨h1, h2, fun g₃ h₂ c₂ hc₂ => (deepcopy_reads f).1 g₃ _ r v h₂ c₂ h2 hc₂⟩

/-- Witness for C2 at a concrete heap: registry dict at address 1 with one
channel (id 5) whose options object sits at address 0; the copy lands at
address 3 with its options copy at address 2; we clobber the copied options
object at address 2. -/
theorem get_subbed_channels_isolation_witness :
    readVal 2
        [HObj.hopts NotificationType.typeA "m", HObj.hdict [(5, 0)],
         HObj.hopts NotificationType.typeA "m", HObj.hdict [(5, 2)]] 3 =
      some (HVal.vdict [(5, HVal.vopts NotificationType.typeA "m")]) ∧
    readVal 2
        (heapMutate
          [HObj.hopts NotificationType.typeA "m", HObj.hdict [(5, 0)],
           HObj.hopts NotificationType.typeA "m", HObj.hdict [(5, 2)]] 2
          (HObj.hleaf "evil")) 1 =
      some (HVal.vdict [(5, HVal.vopts NotificationType.typeA "m")]) ∧
    (∀ (g₃ : Nat) (h₂ : Heap) (c₂ : Nat),
      deepcopyA g₃
          (heapMutate
            [HObj.hopts NotificationType.typeA "m", HObj.hdict [(5, 0)],
             HObj.hopts NotificationType.typeA "m", HObj.hdict [(5, 2)]] 2
            (HObj.hleaf "evil")) 1 = some (h₂, c₂) →
      readVal 2 h₂ c₂ = some (HVal.vdict [(5, HVal.vopts NotificationType.typeA "m")])) :=
  get_subbed_channels_isolation 2 2 2
    [HObj.hopts NotificationType.typeA "m", HObj.hdict [(5, 0)]]
    [HObj.hopts NotificationType.typeA "m", HObj.hdict [(5, 0)],
     HObj.hopts NotificationType.typeA "m", HObj.hdict [(5, 2)]]
    1 3 2 (HVal.vdict [(5, HVal.vopts NotificationType.typeA "m")]) (HObj.hleaf "evil")
    rfl rfl (by decide)

/-- C1 — Round-trip persistence: start from a file system whose file at path
`P` (if any) is an image `save` could have produced, construct a store at `P`
and perform any sequence of successful mutating calls; constructing a second
store at the same path `P` then succeeds and has observable state
(`get_subbed_channels` and `get_notification_task_vars`) equal to the first
instance's final state. -/
theorem roundtrip_persistence (fs : FS) (P : String) (ops : List Op) (ds₀ : DataStore)
    (hwf : WFat fs P) (hinit : DataStore.init fs P = Except.ok ds₀) :
    ∃ ds₂, DataStore.init (runOps (ds₀, fs) ops).2 P = Except.ok ds₂ ∧
      observableState ds₂ = observableState (runOps (ds₀, fs) ops).1 := by
  have hinv := runOps_storeInv P ops ds₀ fs (init_storeInv P ds₀ fs hwf hinit)
  exact ⟨_, init_of_storeInv P _ _ hinv, rfl⟩

/-- Witness for C1: fresh store at "p", one successful `add`, reload. -/
theorem roundtrip_persistence_witness :
    ∃ ds₂, DataStore.init
        (runOps (defaultState "p", ([] : FS)) [Op.add 1 NotificationType.typeA "m"]).2 "p" =
        Except.ok ds₂ ∧
      observableState ds₂ =
        observableState (runOps (defaultState "p", ([] : FS))
          [Op.add 1 NotificationType.typeA "m"]).1 :=
  roundtrip_persistence [] "p" [Op.add 1 NotificationType.typeA "m"] (defaultState "p")
    (Or.inl rfl) rfl

/-- C3 — Idempotent insert: with the channel id already a key,
`add_subbed_channel` returns `False` and changes neither the store state nor
the disk; with the id absent it inserts the new `SubscriptionOptions`,
persists, and returns `True`; hence calling it twice with identical arguments
makes the second call return `False` and leave the registry exactly as after
the first call (original options kept). -/
theorem add_subbed_channel_idempotent :
    (∀ (ds : DataStore) (cid : Int) (nt : NotificationType) (lm : String) (fs : FS) (wok : Bool),
      dictMem ds._subscribed_channels cid = true →
      ds.add_subbed_channel cid nt lm fs wok = (ds, Except.ok (false, fs))) ∧
    (∀ (ds : DataStore) (cid : Int) (nt : NotificationType) (lm : String) (fs : FS),
      dictMem ds._subscribed_channels cid = false →
      ds.add_subbed_channel cid nt lm fs true =
        ({ ds with _subscribed_channels := ds._subscribed_channels ++ [(cid, ⟨nt, lm⟩)] },
         Except.ok (true, fsWrite fs ds._pickle_file_path (FileContent.image
           (toDump { ds with _subscribed_channels :=
              ds._subscribed_channels ++ [(cid, ⟨nt, lm⟩)] }))))) ∧
    (∀ (ds : DataStore) (cid : Int) (nt : NotificationType) (lm : String) (fs : FS) (wok₂ : Bool),
      dictMem ds._subscribed_channels cid = false →
      ∃ ds₁ fs₁, ds.add_subbed_channel cid nt lm fs true = (ds₁, Except.ok (true, fs₁)) ∧
        ds₁.add_subbed_channel cid nt lm fs₁ wok₂ = (ds₁, Except.ok (false, fs₁))) := by
  refine ⟨?_, ?_, ?_⟩
  · intro ds cid nt lm fs wok hmem
    simp [DataStore.add_subbed_channel, hmem]
  · intro ds cid nt lm fs hmem
    simp [DataStore.add_subbed_channel, hmem, DataStore.save]
  · intro ds cid nt lm fs wok₂ hmem
    refine ⟨{ ds with _subscribed_channels := ds._subscribed_channels ++ [(cid, ⟨nt, lm⟩)] },
      fsWrite fs ds._pickle_file_path (FileContent.image
        (toDump { ds with _subscribed_channels :=
           ds._subscribed_channels ++ [(cid, ⟨nt, lm⟩)] })), ?_, ?_⟩
    · simp [DataStore.add_subbed_channel, hmem, DataStore.save]
    · have hmem2 : dictMem (ds._subscribed_channels ++ [(cid, ⟨nt, lm⟩)]) cid = true :=
        dictMem_append_self ds._subscribed_channels cid ⟨nt, lm⟩
      simp [DataStore.add_subbed_channel, hmem2]

/-- Witness for C3: add channel 100 to the fresh store twice. -/
theorem add_subbed_channel_idempotent_witness :
    ∃ ds₁ fs₁,
      (defaultState "p").add_subbed_channel 100 NotificationType.typeA "@here" [] true =
        (ds₁, Except.ok (true, fs₁)) ∧
      ds₁.add_subbed_channel 100 NotificationType.typeA "@here" fs₁ true =
        (ds₁, Except.ok (false, fs₁)) :=
  add_subbed_channel_idempotent.2.2 (defaultState "p") 100 NotificationType.typeA "@here"
    [] true rfl

/-- C4 — Symmetric removal: `remove_subbed_channel` deletes the entry,
persists, and returns `True` exactly when the channel id is present; when it
is absent it returns `False`, changes nothing, and performs no write. -/
theorem remove_subbed_channel_symmetric :
    (∀ (ds : DataStore) (cid : Int) (fs : FS) (wok : Bool),
      dictMem ds._subscribed_channels cid = false →
      ds.remove_subbed_channel cid fs wok = (ds, Except.ok (false, fs))) ∧
    (∀ (ds : DataStore) (cid : Int) (fs : FS),
      dictMem ds._subscribed_channels cid = true →
      ds.remove_subbed_channel cid fs true =
        ({ ds with _subscribed_channels := dictErase ds._subscribed_channels cid },
         Except.ok (true, fsWrite fs ds._pickle_file_path (FileContent.image
           (toDump { ds with
             _subscribed_channels := dictErase ds._subscribed_channels cid }))))) := by
  constructor
  · intro ds cid fs wok hmem
    simp [DataStore.remove_subbed_channel, hmem]
  · intro ds cid fs hmem
    simp [DataStore.remove_subbed_channel, hmem, DataStore.save]

/-- Witness for C4: remove channel 100 while present, then while absent. -/
theorem remove_subbed_channel_symmetric_witness :
    ({ defaultState "p" with
        _subscribed_channels := [(100, ⟨NotificationType.typeA, "@here"⟩)] } :
      DataStore).remove_subbed_channel 100 [] true =
      ({ defaultState "p" with
          _subscribed_channels := dictErase [(100, ⟨NotificationType.typeA, "@here"⟩)] 100 },
       Except.ok (true, fsWrite [] "p" (FileContent.image
         (toDump { defaultState "p" with
            _subscribed_channels :=
              dictErase [(100, ⟨NotificationType.typeA, "@here"⟩)] 100 })))) ∧
    (defaultState "p").remove_subbed_channel 100 [] false =
      (defaultState "p", Except.ok (false, [])) :=
  ⟨remove_subbed_channel_symmetric.2
      { defaultState "p" with
          _subscribed_channels := [(100, ⟨NotificationType.typeA, "@here"⟩)] } 100 [] rfl,
   remove_subbed_channel_symmetric.1 (defaultState "p") 100 [] false rfl⟩

/-- C5 — Fresh-start default: constructing a store at a path with no existing
file raises no error and yields the default state: zero subscriptions and
notification task vars `(False, {})`. -/
theorem fresh_start_default (fs : FS) (path : String) (hnone : fsRead fs path = none) :
    DataStore.init fs path = Except.ok (defaultState path) ∧
    (defaultState path).subbed_channels_count = 0 ∧
    (defaultState path).get_notification_task_vars = (false, PyData.pdict []) := by
  refine ⟨?_, rfl, rfl⟩
  simp [DataStore.init, hnone]

/-- Witness for C5 at the empty file system. -/
theorem fresh_start_default_witness :
    DataStore.init [] "p" = Except.ok (defaultState "p") ∧
    (defaultState "p").subbed_channels_count = 0 ∧
    (defaultState "p").get_notification_task_vars = (false, PyData.pdict []) :=
  fresh_start_default [] "p" rfl

/-- C6 counterexample — a file that exists and is a valid pickle of a mapping
of the wrong shape (no store field among its keys) does NOT make construction
fail: `pickle.load` succeeds, `self.__dict__.update` succeeds, only
`FileNotFoundError` is even caught, and the store silently starts with the
empty default state.  This refutes the claim that any file that cannot be
deserialized into the expected shape is a fatal construction error. -/
theorem load_wrong_shape_silently_defaults :
    fsRead [("p", FileContent.image [("unexpected", FieldVal.flag true)])] "p" =
      some (FileContent.image [("unexpected", FieldVal.flag true)]) ∧
    DataStore.init [("p", FileContent.image [("unexpected", FieldVal.flag true)])] "p" =
      Except.ok (defaultState "p") ∧
    (defaultState "p").subbed_channels_count = 0 :=
  ⟨rfl, rfl, rfl⟩

/-- C6 amended — Load failure is fatal and distinct unless the file is a
mapping: if the file at the configured path exists but is unreadable for any
reason other than not-found (`open` raises e.g. `PermissionError`), or its
bytes cannot be unpickled, or it unpickles to a non-mapping (so
`__dict__.update` raises), construction fails with an error, and each of
these error kinds is distinct from the missing-file case, which is no error
at all (defaults).  Only the expected-shape half of the original claim is
narrowed: a file that unpickles to a mapping of unexpected shape does not
fail; its recognized keys are merged and the store otherwise silently keeps
the default state, as the counterexample shows. -/
theorem load_corruption_fatal (fs : FS) (path : String) :
    (fsRead fs path = some FileContent.unreadable →
      DataStore.init fs path = Except.error LoadError.osReadError) ∧
    (fsRead fs path = some FileContent.corrupt →
      DataStore.init fs path = Except.error LoadError.unpicklingError) ∧
    (fsRead fs path = some FileContent.nonDict →
      DataStore.init fs path = Except.error LoadError.updateTypeError) ∧
    (fsRead fs path = none →
      DataStore.init fs path = Except.ok (defaultState path)) := by
  refine ⟨?_, ?_, ?_, ?_⟩ <;> intro h <;> simp [DataStore.init, h]

/-- Witness for the amended C6: a one-file system holding corrupt bytes, and
one whose file exists but cannot be opened. -/
theorem load_corruption_fatal_witness :
    DataStore.init [("p", FileContent.corrupt)] "p" =
      Except.error LoadError.unpicklingError ∧
    DataStore.init [("p", FileContent.unreadable)] "p" =
      Except.error LoadError.osReadError :=
  ⟨(load_corruption_fatal [("p", FileContent.corrupt)] "p").2.1 rfl,
   (load_corruption_fatal [("p", FileContent.unreadable)] "p").1 rfl⟩

/-- C7 — No rollback on persistence failure: `set_notification_task_vars`
first assigns the flag and the (deep-copied) snapshot into the instance and
then saves; the in-memory state holds the new values whether or not the write
succeeds, a failed write surfaces as the `OSError` from `save`, and a
successful write persists the full image of the new state. -/
theorem set_notification_task_vars_no_rollback (ds : DataStore) (b : Bool) (d : PyData)
    (fs : FS) (wok : Bool) :
    (ds.set_notification_task_vars b d fs wok).1 =
      { ds with
        _launch_embed_for_current_schedule_sent := b
        _previous_schedule_embed_dict := d } ∧
    (wok = true → (ds.set_notification_task_vars b d fs wok).2 =
      Except.ok (fsWrite fs ds._pickle_file_path
        (FileContent.image (toDump (ds.set_notification_task_vars b d fs wok).1)))) ∧
    (wok = false → (ds.set_notification_task_vars b d fs wok).2 =
      Except.error SaveError.ioError) := by
  refine ⟨rfl, ?_, ?_⟩ <;> intro h <;> subst h <;>
    simp [DataStore.set_notification_task_vars, DataStore.save]

/-- Witness for C7 with the write failing: state updated, error raised. -/
theorem set_notification_task_vars_no_rollback_witness :
    ((defaultState "p").set_notification_task_vars true (PyData.pint 3) [] false).1 =
      { defaultState "p" with
        _launch_embed_for_current_schedule_sent := true
        _previous_schedule_embed_dict := PyData.pint 3 } ∧
    ((defaultState "p").set_notification_task_vars true (PyData.pint 3) [] false).2 =
      Except.error SaveError.ioError :=
  ⟨(set_notification_task_vars_no_rollback (defaultState "p") true (PyData.pint 3)
      [] false).1,
   (set_notification_task_vars_no_rollback (defaultState "p") true (PyData.pint 3)
      [] false).2.2 rfl⟩

/-- C8 — Write-through discipline: every mutating call that mutates
(`set_notification_task_vars` always; `add_subbed_channel` and
`remove_subbed_channel` when they return `True`) re-serializes all three
state fields to the configured path before returning, so a successful return
leaves the persisted image equal to the new in-memory state; and when the
write fails, the mutating call itself fails (it never reports success). -/
theorem write_through_discipline :
    (∀ (ds : DataStore) (b : Bool) (d : PyData) (fs : FS) (wok : Bool)
        (ds' : DataStore) (fs' : FS),
      ds.set_notification_task_vars b d fs wok = (ds', Except.ok fs') →
      fsRead fs' ds'._pickle_file_path = some (FileContent.image (toDump ds'))) ∧
    (∀ (ds : DataStore) (cid : Int) (nt : NotificationType) (lm : String) (fs : FS)
        (wok : Bool) (ds' : DataStore) (fs' : FS),
      ds.add_subbed_channel cid nt lm fs wok = (ds', Except.ok (true, fs')) →
      fsRead fs' ds'._pickle_file_path = some (FileContent.image (toDump ds'))) ∧
    (∀ (ds : DataStore) (cid : Int) (fs : FS) (wok : Bool) (ds' : DataStore) (fs' : FS),
      ds.remove_subbed_channel cid fs wok = (ds', Except.ok (true, fs')) →
      fsRead fs' ds'._pickle_file_path = some (FileContent.image (toDump ds'))) ∧
    (∀ (ds : DataStore) (b : Bool) (d : PyData) (fs : FS),
      (ds.set_notification_task_vars b d fs false).2 = Except.error SaveError.ioError) ∧
    (∀ (ds : DataStore) (cid : Int) (nt : NotificationType) (lm : String) (fs : FS),
      dictMem ds._subscribed_channels cid = false →
      (ds.add_subbed_channel cid nt lm fs false).2 = Except.error SaveError.ioError) ∧
    (∀ (ds : DataStore) (cid : Int) (fs : FS),
      dictMem ds._subscribed_channels cid = true →
      (ds.remove_subbed_channel cid fs false).2 = Except.error SaveError.ioError) := by
  refine ⟨?_, ?_, ?_, ?_, ?_, ?_⟩
  · intro ds b d fs wok ds' fs' h
    cases wok with
    | false => simp [DataStore.set_notification_task_vars, DataStore.save] at h
    | true =>
      simp only [DataStore.set_notification_task_vars, DataStore.save, if_pos,
        Prod.mk.injEq, Except.ok.injEq] at h
      obtain ⟨rfl, rfl⟩ := h
      exact fsRead_fsWrite_self fs _ _
  · intro ds cid nt lm fs wok ds' fs' h
    by_cases hmem : dictMem ds._subscribed_channels cid
    · simp [DataStore.add_subbed_channel, hmem] at h
    · cases wok with
      | false => simp [DataStore.add_subbed_channel, hmem, DataStore.save] at h
      | true =>
        simp only [DataStore.add_subbed_channel, hmem, DataStore.save, if_pos,
          Bool.false_eq_true, if_neg, Prod.mk.injEq, Except.ok.injEq] at h
        obtain ⟨rfl, _, rfl⟩ := h
        exact fsRead_fsWrite_self fs _ _
  · intro ds cid fs wok ds' fs' h
    by_cases hmem : dictMem ds._subscribed_channels cid
    · cases wok with
      | false => simp [DataStore.remove_subbed_channel, hmem, DataStore.save] at h
      | true =>
        simp only [DataStore.remove_subbed_channel, hmem, DataStore.save, if_pos,
          Prod.mk.injEq, Except.ok.injEq] at h
        obtain ⟨rfl, _, rfl⟩ := h
        exact fsRead_fsWrite_self fs _ _
    · simp [DataStore.remove_subbed_channel, hmem] at h
  · intro ds b d fs
    simp [DataStore.set_notification_task_vars, DataStore.save]
  · intro ds cid nt lm fs hmem
    simp [DataStore.add_subbed_channel, hmem, DataStore.save]
  · intro ds cid fs hmem
    simp [DataStore.remove_subbed_channel, hmem, DataStore.save]

/-- Witness for C8: a successful `add` on the fresh store leaves the file at
"p" holding the image of the new state. -/
theorem write_through_discipline_witness :
    fsRead (fsWrite [] "p" (FileContent.image (toDump
        { defaultState "p" with
          _subscribed_channels := [(100, ⟨NotificationType.typeA, "@here"⟩)] }))) "p" =
      some (FileContent.image (toDump
        { defaultState "p" with
          _subscribed_channels := [(100, ⟨NotificationType.typeA, "@here"⟩)] })) :=
  write_through_discipline.2.1 (defaultState "p") 100 NotificationType.typeA "@here" [] true
    { defaultState "p" with
      _subscribed_channels := [(100, ⟨NotificationType.typeA, "@here"⟩)] }
    (fsWrite [] "p" (FileContent.image (toDump
      { defaultState "p" with
        _subscribed_channels := [(100, ⟨NotificationType.typeA, "@here"⟩)] }))) rfl

/-- C9 — Count consistency: after any sequence of successful mutating calls
starting from the empty store, `subbed_channels_count` equals the number of
distinct channel ids currently inserted and not yet removed (the spec-side
bookkeeping `specIds`, which is duplicate-free).  The count itself is a pure
function of the store state, touching neither the state nor the file
system. -/
theorem count_consistency (ops : List Op) (P : String) (fs : FS) :
    ((runOps (defaultState P, fs) ops).1).subbed_channels_count = (specIds ops).length ∧
    (specIds ops).Nodup := by
  constructor
  · have hkeys := keys_runOps ops (defaultState P) fs
    have hempty : (defaultState P)._subscribed_channels.map Prod.fst = [] := rfl
    rw [hempty] at hkeys
    have hlen : ((runOps (defaultState P, fs) ops).1).subbed_channels_count =
        (((runOps (defaultState P, fs) ops).1)._subscribed_channels.map Prod.fst).length := by
      rw [List.length_map]
      rfl
    rw [hlen, hkeys]
    rfl
  · exact specIds_foldl_nodup ops [] List.nodup_nil

/-- C10 — Path stability across reload: `save` serializes exactly the three
state fields — its `to_dump` keys are precisely the three attribute names, so
`_pickle_file_path` is never written — and therefore constructing a store at
path `P` over an image previously produced by `save` succeeds, the reflective
`__dict__.update` merge restores the three dumped fields, and the new
instance's configured path is `P`. -/
theorem path_stability :
    (∀ (ds : DataStore), (toDump ds).map Prod.fst =
      ["_subscribed_channels", "_launch_embed_for_current_schedule_sent",
       "_previous_schedule_embed_dict"]) ∧
    (∀ (fs : FS) (P : String) (ds₀ : DataStore),
      DataStore.init (fsWrite fs P (FileContent.image (toDump ds₀))) P =
        Except.ok
          { _pickle_file_path := P
            _subscribed_channels := ds₀._subscribed_channels
            _launch_embed_for_current_schedule_sent :=
              ds₀._launch_embed_for_current_schedule_sent
            _previous_schedule_embed_dict := ds₀._previous_schedule_embed_dict }) := by
  constructor
  · intro ds
    rfl
  · intro fs P ds₀
    have hread := fsRead_fsWrite_self fs P (FileContent.image (toDump ds₀))
    rw [toDump_fields] at hread
    simp only [DataStore.init, toDump_fields, hread, dictUpdate_dumpFields]
    rfl
